import Mathlib

/-!
Verification of the delimited-block locator and relocator implemented in
`scripts/reorganize_tests.py`.  The Python functions are shallowly embedded
over `List Char`: a file buffer is a list of lines (each line a `List Char`,
normally ending in a newline, exactly as produced by `readlines`), and the
whole-file content used by the relocation helpers is a single `List Char`.
All definitions are executable and structurally recursive (fuel is used where
the Python loop advances by a computed amount), so concrete runs reduce by
`decide`.
-/

set_option autoImplicit false

namespace ReorganizeTests

/-- Double-quote character, written by code to avoid literal quoting issues. -/
def quoteD : Char := Char.ofNat 34

/-- Single-quote character. -/
def quoteS : Char := Char.ofNat 39

/-- Backslash character. -/
def backslashC : Char := Char.ofNat 92

/-- Opening curly brace character. -/
def openBraceC : Char := Char.ofNat 123

/-- Closing curly brace character. -/
def closeBraceC : Char := Char.ofNat 125

/-- Closing parenthesis character. -/
def closeParenC : Char := ')'

/-- Whitespace in the sense of Python `str.strip` / the regex class `\s`
(ASCII range): space, tab, newline, carriage return, vertical tab, form feed. -/
def isPySpace (c : Char) : Bool :=
  c = ' ' || c = '\t' || c = '\n' || c = '\r' || c = Char.ofNat 11 || c = Char.ofNat 12

/-- Word characters in the sense of the regex class `\w` (ASCII range). -/
def isWordChar (c : Char) : Bool :=
  c.isAlphanum || c = '_'

/-- Boolean test that `pat` occurs as a contiguous substring of `s`,
mirroring Python's `in` / `re.search` on a literal pattern. -/
def containsSub (pat : List Char) : List Char → Bool
  | [] => pat.isEmpty
  | c :: cs => pat.isPrefixOf (c :: cs) || containsSub pat cs

/-- Strip a literal token from the front of a character list, returning the
remainder on success. -/
def stripPref : List Char → List Char → Option (List Char)
  | [], s => some s
  | _ :: _, [] => none
  | t :: ts, c :: cs => if t = c then stripPref ts cs else none

/-- A line is blank when `line.strip() == ""` holds in the Python source,
i.e. every character is whitespace. -/
def isBlankLine (l : List Char) : Bool :=
  l.all isPySpace

/-- The literal attribute marker searched for by `find_test_modules`
(the regex `#\[cfg\(test\)\]` matches exactly this token). -/
def markerToks : List Char := "#[cfg(test)]".toList

/-- Result type of the locator, mirroring the Python dataclass `TestModule`. -/
structure TestModule where
  file_path : List Char
  module_name : List Char
  start_line : Nat
  end_line : Nat
  content : List Char
  indent : List Char
  deriving DecidableEq, Repr

/-- Scanner state of the locator's character-level loop in
`find_test_modules` (lines 69-103 of the script): the running brace depth,
whether the scan is inside a double-quoted string literal, whether a
backslash has made the next character inert, and whether an opening brace
has been seen yet. -/
structure ScanSt where
  braces : Int
  inString : Bool
  escapeNext : Bool
  foundOpen : Bool
  deriving DecidableEq, Repr

/-- Initial scanner state of the locator (`brace_count = 0`, not in a
string, no pending escape, no opener seen). -/
def initSt : ScanSt := ⟨0, false, false, false⟩

/-- One character step of the locator's scanner.  Returns the next state and
`true` exactly when this character is the closing brace that returns the
depth to zero after an opener was seen (the Python loop breaks there). -/
def stepChar (st : ScanSt) (c : Char) : ScanSt × Bool :=
  if st.escapeNext then ({ st with escapeNext := false }, false)
  else if c = backslashC then ({ st with escapeNext := true }, false)
  else if c = quoteD then
    if st.inString then ({ st with inString := false }, false)
    else ({ st with inString := true }, false)
  else if st.inString then (st, false)
  else if c = openBraceC then ({ st with braces := st.braces + 1, foundOpen := true }, false)
  else if c = closeBraceC then
    ({ st with braces := st.braces - 1 }, st.foundOpen && st.braces - 1 = 0)
  else (st, false)

/-- Run the locator's scanner over one line.  `none` means the closing brace
was reached inside this line (the loop breaks); `some st` is the state after
the whole line. -/
def scanLineChars (st : ScanSt) : List Char → Option ScanSt
  | [] => some st
  | c :: cs =>
    match stepChar st c with
    | (_, true) => none
    | (st', false) => scanLineChars st' cs

/-- Scan successive lines until the closing brace is found, returning the
index (relative to the given list) of the line containing it, or `none` when
the buffer ends first (the malformed case: no descriptor is emitted). -/
def findCloseLines (st : ScanSt) : List (List Char) → Option Nat
  | [] => none
  | l :: ls =>
    match scanLineChars st l with
    | none => some 0
    | some st' => (findCloseLines st' ls).map (· + 1)

/-- Parse of the declaration regex `^(\s*)mod\s+(\w+)\s*\{`: leading
whitespace (captured as the indent), the literal `mod`, at least one
whitespace character, a nonempty identifier (captured as the name), optional
whitespace, and an opening brace.  Character classes are pairwise disjoint,
so the greedy regex has this deterministic reading. -/
def parseModDecl (l : List Char) : Option (List Char × List Char) :=
  let ind := l.takeWhile isPySpace
  let r1 := l.dropWhile isPySpace
  match stripPref ("mod".toList) r1 with
  | none => none
  | some r2 =>
    if (r2.takeWhile isPySpace).isEmpty then none
    else
      let r3 := r2.dropWhile isPySpace
      let nm := r3.takeWhile isWordChar
      if nm.isEmpty then none
      else
        let r4 := (r3.dropWhile isWordChar).dropWhile isPySpace
        match r4 with
        | c :: _ => if c = openBraceC then some (ind, nm) else none
        | [] => none

/-- Lookahead of `find_test_modules` after a marker line: skip blank lines,
then require the first non-blank line to parse as a `mod` declaration.
Returns the relative index of that line together with its indent and name. -/
def findDecl : List (List Char) → Option (Nat × List Char × List Char)
  | [] => none
  | l :: ls =>
    if isBlankLine l then (findDecl ls).map (fun r => (r.1 + 1, r.2))
    else
      match parseModDecl l with
      | some (ind, nm) => some (0, ind, nm)
      | none => none

/-- Main loop of `find_test_modules`, with the loop index `i` explicit and
fuel bounding the number of iterations (each iteration advances `i` by at
least one, so `lines.length` fuel is exact).  On a marker line whose
lookahead finds a declaration at line `j = i + 1 + d` and whose scan closes
at line `k = j + o`, a descriptor spanning lines `[i, k+1)` is emitted and
scanning resumes at line `k + 1`; otherwise scanning resumes at `i + 1`. -/
def locFrom (fp : List Char) (lines : List (List Char)) : Nat → Nat → List TestModule
  | 0, _ => []
  | fuel + 1, i =>
    if i < lines.length then
      if containsSub markerToks (lines.getD i []) then
        match findDecl (lines.drop (i + 1)) with
        | some (d, ind, nm) =>
          match findCloseLines initSt (lines.drop (i + 1 + d)) with
          | some o =>
            { file_path := fp
              module_name := nm
              start_line := i
              end_line := i + 1 + d + o + 1
              content := List.flatten ((lines.drop i).take (i + 1 + d + o + 1 - i))
              indent := ind } :: locFrom fp lines fuel (i + 1 + d + o + 1)
          | none => locFrom fp lines fuel (i + 1)
        | none => locFrom fp lines fuel (i + 1)
      else locFrom fp lines fuel (i + 1)
    else []

/-- Embedding of `find_test_modules`: scan the whole buffer from line 0. -/
def find_test_modules (fp : List Char) (lines : List (List Char)) : List TestModule :=
  locFrom fp lines lines.length 0

/-- Closer search of `extract_test_body` (lines 148-178 of the script),
transcribed directly: `bc` is the running `brace_count` (the call starts it
at 1, for the already-consumed opener), `ins` the in-string flag, `esc` the
pending-escape flag.  Returns the index, relative to the given characters,
of the brace whose decrement brings the count to zero. -/
def findCloseRel (bc : Int) (ins esc : Bool) : List Char → Option Nat
  | [] => none
  | c :: cs =>
    if esc then (findCloseRel bc ins false cs).map (· + 1)
    else if c = backslashC then (findCloseRel bc ins true cs).map (· + 1)
    else if c = quoteD then (findCloseRel bc (!ins) false cs).map (· + 1)
    else if ins then (findCloseRel bc ins false cs).map (· + 1)
    else if c = openBraceC then (findCloseRel (bc + 1) ins false cs).map (· + 1)
    else if c = closeBraceC then
      if bc - 1 = 0 then some 0 else (findCloseRel (bc - 1) ins false cs).map (· + 1)
    else (findCloseRel bc ins false cs).map (· + 1)

/-- Candidate body computed by `extract_test_body` before trimming: the
opening brace is located with `content.find` — the first brace character of
the content, with no regard to string or escape context — and the matching
closer with the string/escape-aware counter.  `none` corresponds to the
Python early returns of the empty string. -/
def candidateBody (content : List Char) : Option (List Char) :=
  match content.findIdx? (fun c => c = openBraceC) with
  | none => none
  | some obi =>
    match findCloseRel 1 false false (content.drop (obi + 1)) with
    | none => none
    | some rel => some ((content.drop (obi + 1)).take rel)

/-- Split a character list at newline characters, preserving empty pieces,
exactly like Python `str.split` on a one-character separator. -/
def splitNl : List Char → List (List Char)
  | [] => [[]]
  | c :: cs =>
    if c = '\n' then [] :: splitNl cs
    else
      match splitNl cs with
      | t :: ts => (c :: t) :: ts
      | [] => [[c]]

/-- Remove leading and trailing blank lines of the body (the two `while ...
pop` loops of `extract_test_body`). -/
def trimBlank (ls : List (List Char)) : List (List Char) :=
  (((ls.dropWhile isBlankLine).reverse).dropWhile isBlankLine).reverse

/-- Dedent of one body line: a non-blank line starting with the module's
indent loses that indent; blank lines and lines not starting with the indent
are kept unchanged. -/
def dedentLine (ind l : List Char) : List Char :=
  if isBlankLine l then l
  else if ind.isPrefixOf l then l.drop ind.length
  else l

/-- Dedent stage of `extract_test_body`: applied only when the trimmed body
is nonempty and the indent is nonempty (the Python guard
`if lines and test_module.indent`). -/
def dedentStage (ind : List Char) (ls : List (List Char)) : List (List Char) :=
  if ls.isEmpty || ind.isEmpty then ls else ls.map (dedentLine ind)

/-- Post-processing of the candidate body: split into lines, trim blank
lines at both ends, dedent, and rejoin with newlines. -/
def processBody (ind body : List Char) : List Char :=
  List.intercalate ['\n'] (dedentStage ind (trimBlank (splitNl body)))

/-- Embedding of `extract_test_body`.  Returns the empty string when either
brace of the declaration cannot be found. -/
def extract_test_body (tm : TestModule) : List Char :=
  match candidateBody tm.content with
  | none => []
  | some b => processBody tm.indent b

/-- Literal token `include_str!(` of the rewrite regex. -/
def tokStr : List Char := "include_str!(".toList

/-- Literal token `include_bytes!(` of the rewrite regex. -/
def tokBytes : List Char := "include_bytes!(".toList

/-- Character admissible inside the regex group `[^"\']+`: anything except
the two quote characters. -/
def notQuote (c : Char) : Bool :=
  !(c = quoteD || c = quoteS)

/-- Embedding of the nested Python function `adjust_include_path` (only the
path argument is relevant: the prefix and quote groups are reassembled
verbatim by the caller): a path that does not already start with `../` or
`/` is prefixed with one `../` segment. -/
def adjust_include_path (p : List Char) : List Char :=
  if ("../".toList).isPrefixOf p || ("/".toList).isPrefixOf p then p
  else "../".toList ++ p

/-- Attempt to match the rewrite regex right after one of its literal
tokens: a quote character, a nonempty run of non-quote characters, the same
quote character, and a closing parenthesis.  On success, returns the rebuilt
replacement text and the remaining input. -/
def tryMatchAfter (pfx : List Char) : List Char → Option (List Char × List Char)
  | [] => none
  | q :: r1 =>
    if q = quoteD || q = quoteS then
      let p := r1.takeWhile notQuote
      let r2 := r1.dropWhile notQuote
      if p.isEmpty then none
      else
        match r2 with
        | q2 :: c :: r4 =>
          if q2 = q && c = closeParenC then
            some (pfx ++ [q] ++ adjust_include_path p ++ [q, closeParenC], r4)
          else none
        | _ => none
    else none

/-- Attempt to match the rewrite regex
`(include_(?:str|bytes)!)\((["\'])([^"\']+)\2\)` at the head of the input,
trying the `str` alternative first, as the regex engine does. -/
def tryMatch (s : List Char) : Option (List Char × List Char) :=
  match stripPref tokStr s with
  | some r => tryMatchAfter tokStr r
  | none =>
    match stripPref tokBytes s with
    | some r => tryMatchAfter tokBytes r
    | none => none

/-- Scan loop of `re.sub` for the rewrite regex: at each position try to
match; on success emit the replacement and continue after the match, else
copy one character.  Fuel bounds the iteration count (each step consumes at
least one input character, so the input length is enough fuel). -/
def pySubInc : Nat → List Char → List Char
  | 0, s => s
  | _ + 1, [] => []
  | fuel + 1, c :: cs =>
    match tryMatch (c :: cs) with
    | some (rep, rest) => rep ++ pySubInc fuel rest
    | none => c :: pySubInc fuel cs

/-- Embedding of the `re.sub` call of `create_tests_file`. -/
def rewriteIncludes (s : List Char) : List Char :=
  pySubInc s.length s

/-- Body after the conditional path adjustment of `create_tests_file`: the
flag stands for `original_file_dir and original_file_dir != module_dir`. -/
def adjustedBody (moveAdjust : Bool) (body : List Char) : List Char :=
  if moveAdjust then rewriteIncludes body else body

/-- True when the list ends in a newline (`str.endswith("\n")`; false for
the empty string, as in Python). -/
def endsWithNl (l : List Char) : Bool :=
  match l.getLast? with
  | some c => c = '\n'
  | none => false

/-- Content written by `create_tests_file`: the adjusted body, followed by
one newline whenever the adjusted body does not already end in one. -/
def create_tests_file (moveAdjust : Bool) (body : List Char) : List Char :=
  adjustedBody moveAdjust body ++
    (if endsWithNl (adjustedBody moveAdjust body) then [] else ['\n'])

/-- Python `str.replace` with an empty pattern: the replacement is inserted
before every character and at the end. -/
def pyReplaceEmpty (new : List Char) : List Char → List Char
  | [] => new
  | c :: cs => new ++ c :: pyReplaceEmpty new cs

/-- Scan loop of Python `str.replace` for a nonempty pattern: replace each
leftmost non-overlapping occurrence, left to right.  Fuel bounds the
iteration count; on exhaustion the remaining input is returned unchanged. -/
def pyReplaceGo (old new : List Char) : Nat → List Char → List Char
  | 0, s => s
  | _ + 1, [] => []
  | fuel + 1, c :: cs =>
    if old.isPrefixOf (c :: cs) then
      new ++ pyReplaceGo old new fuel ((c :: cs).drop old.length)
    else c :: pyReplaceGo old new fuel cs

/-- Embedding of Python `content.replace(old, new)`. -/
def pyReplace (old new s : List Char) : List Char :=
  if old.isEmpty then pyReplaceEmpty new s
  else pyReplaceGo old new s.length s

/-- Stub text built by `replace_test_module_with_mod_reference`:
`f"{indent}#[cfg(test)]\n{indent}mod {module_name};\n"`. -/
def modStub (ind nm : List Char) : List Char :=
  ind ++ markerToks ++ ['\n'] ++ ind ++ "mod ".toList ++ nm ++ ";\n".toList

/-- Embedding of `replace_test_module_with_mod_reference` at the level of
file contents: every occurrence of the descriptor's content is replaced by
the stub (Python `str.replace` replaces all occurrences). -/
def replace_test_module_with_mod_reference (fileContent : List Char) (tm : TestModule) : List Char :=
  pyReplace tm.content (modStub tm.indent tm.module_name) fileContent

/-- Closer search expressed with the locator's own step function `stepChar`,
started with `foundOpen = true`: the index of the character on which the
step reports the depth returned to zero. -/
def locCloseRel (st : ScanSt) : List Char → Option Nat
  | [] => none
  | c :: cs =>
    match stepChar st c with
    | (_, true) => some 0
    | (st', false) => (locCloseRel st' cs).map (· + 1)

/-- Modelled from the spec: the claim about `extract_test_body` states that
the opener is "the first unescaped `{`" — a brace that is escaped by a
backslash or lies inside a double-quoted string literal does not count.
This runs the locator's scanner and returns the index of the first brace
encountered outside string-literal mode and with no pending escape. -/
def specFirstOpen (st : ScanSt) : List Char → Option Nat
  | [] => none
  | c :: cs =>
    if !st.inString && !st.escapeNext && c = openBraceC then some 0
    else (specFirstOpen (stepChar st c).1 cs).map (· + 1)

/-- Modelled from the spec: candidate body as the claim describes it — the
substring strictly between the first unescaped opening brace and the
matching closer found by the string/escape-aware counter. -/
def specCandidateBody (content : List Char) : Option (List Char) :=
  match specFirstOpen initSt content with
  | none => none
  | some obi =>
    match locCloseRel ⟨1, false, false, true⟩ (content.drop (obi + 1)) with
    | none => none
    | some rel => some ((content.drop (obi + 1)).take rel)

/-- Amended description of the candidate body: the opener is the first brace
character of the content regardless of escape or string context (Python
`content.find`), and the closer is found with the same string/escape-aware
depth counter as the locator (`stepChar`). -/
def amendedCandidateBody (content : List Char) : Option (List Char) :=
  match content.findIdx? (fun c => c = openBraceC) with
  | none => none
  | some obi =>
    match locCloseRel ⟨1, false, false, true⟩ (content.drop (obi + 1)) with
    | none => none
    | some rel => some ((content.drop (obi + 1)).take rel)

/-- Concrete buffer of the C1 scenario: marker, declaration, one body line,
closing brace. -/
def bufC1 : List (List Char) :=
  ["#[cfg(test)]\n".toList, "mod tests \x7b\n".toList,
   "assert_eq!(1, 1);\n".toList, "\x7d\n".toList]

/-- Descriptor the locator yields on `bufC1`. -/
def tmC1 : TestModule :=
  { file_path := [], module_name := "tests".toList, start_line := 0, end_line := 4,
    content := List.flatten bufC1, indent := [] }

/-- Concrete buffer whose body contains the string literal `"a\"{b"`: an
escaped quote immediately followed by a brace character. -/
def bufC2 : List (List Char) :=
  ["#[cfg(test)]\n".toList, "mod tests \x7b\n".toList,
   "let s = \x22a\\\x22\x7bb\x22;\n".toList, "\x7d\n".toList]

/-- Descriptor the locator yields on `bufC2`: the span ends at line 3, the
block's true closing brace. -/
def tmC2 : TestModule :=
  { file_path := [], module_name := "tests".toList, start_line := 0, end_line := 4,
    content := List.flatten bufC2, indent := [] }

/-- Concrete content for the C5 counterexample: the marker line carries a
brace inside a double-quoted string literal before the declaration line. -/
def contentC5 : List Char :=
  "let a = \x22\x7b\x22; // #[cfg(test)]\nmod tests \x7b\nbody();\n\x7d\n".toList

/-- Concrete buffer for C8: a malformed block (its opener never closes
before a well-formed block begins, and the net depth never returns to zero
by end of buffer) followed by a well-formed block. -/
def bufC8 : List (List Char) :=
  ["#[cfg(test)]\n".toList, "mod broken \x7b\n".toList,
   "#[cfg(test)]\n".toList, "mod good \x7b\n".toList, "\x7d\n".toList]

/-- Descriptor of the well-formed block of `bufC8`. -/
def tmC8 : TestModule :=
  { file_path := [], module_name := "good".toList, start_line := 2, end_line := 5,
    content := List.flatten (bufC8.drop 2), indent := [] }

/-- Concrete trimmed body lines for the C4 counterexample: a whitespace-only
interior line that begins with the four-space indent. -/
def bodyLinesC4 : List (List Char) :=
  ["        a();".toList, "    ".toList, "        b();".toList]

/-- An include-directive call as matched by the rewrite regex: the literal
token selected by `k` (`true` for `include_str!(`, `false` for
`include_bytes!(`), a quote character, the path, the same quote character,
and a closing parenthesis. -/
def incCall (k : Bool) (q : Char) (p : List Char) : List Char :=
  (if k then tokStr else tokBytes) ++ [q] ++ p ++ [q, closeParenC]

/-- Helper: `getD` through `map` at an in-range index. -/
theorem getD_map (f : List Char → List Char) :
    ∀ (ls : List (List Char)) (i : Nat), i < ls.length →
      (ls.map f).getD i [] = f (ls.getD i []) := by
  intro ls
  induction ls with
  | nil => intro i h; simp at h
  | cons l ls ih =>
    intro i h
    cases i with
    | zero => rfl
    | succ j =>
      simp only [List.map_cons, List.getD_cons_succ]
      exact ih j (by simpa using Nat.lt_of_succ_lt_succ h)

/-- C1: for the buffer `#[cfg(test)]` / `mod tests \x7b` / `assert_eq!(1, 1);` /
`\x7d`, the locator yields exactly one descriptor, named `tests`; the
destination file content is exactly `assert_eq!(1, 1);` plus one newline;
and the replacement rewrites the four-line span to
`#[cfg(test)]\nmod tests;\n` with the descriptor's (empty) indent. -/
theorem claim_C1 :
    find_test_modules [] bufC1 = [tmC1] ∧
    tmC1.module_name = "tests".toList ∧
    create_tests_file true (extract_test_body tmC1) = "assert_eq!(1, 1);\n".toList ∧
    replace_test_module_with_mod_reference (List.flatten bufC1) tmC1 =
      "#[cfg(test)]\nmod tests;\n".toList := by
  refine ⟨by decide, by decide, by decide, by decide⟩

/-- C2: in string-literal mode with no pending escape, scanning `\` then `"`
then a brace leaves the scanner state unchanged — the backslash consumes the
quote, string mode persists, and the brace does not change the depth; and on
a concrete block whose body contains the literal `"a\"\x7bb"` the locator still
ends the span at the block's true closing brace (line 3, `end_line = 4`). -/
theorem claim_C2 (st : ScanSt) (h1 : st.inString = true) (h2 : st.escapeNext = false) :
    scanLineChars st [backslashC, quoteD, openBraceC] = some st ∧
    find_test_modules [] bufC2 = [tmC2] := by
  obtain ⟨b, ins, esc, fo⟩ := st
  cases h1
  cases h2
  exact ⟨rfl, by decide⟩

/-- Witness for C2 at a concrete scanner state. -/
theorem claim_C2_witness :
    scanLineChars ⟨2, true, false, true⟩ [backslashC, quoteD, openBraceC] =
      some ⟨2, true, false, true⟩ ∧
    find_test_modules [] bufC2 = [tmC2] :=
  claim_C2 ⟨2, true, false, true⟩ rfl rfl

/-- Counterexample for C3: with an empty body the written file is not empty
(Python `"".endswith("\n")` is false, so a newline is still written). -/
theorem claim_C3_cex : create_tests_file true [] ≠ [] := by decide

/-- C3 (amended): the written file is the adjusted body verbatim when that
body already ends in a newline, the adjusted body plus exactly one newline
when it is nonempty without a trailing newline, and a single newline when
the body is empty (not an empty file). -/
theorem claim_C3 (flag : Bool) (b : List Char) :
    (endsWithNl (adjustedBody flag b) = true →
       create_tests_file flag b = adjustedBody flag b) ∧
    (endsWithNl (adjustedBody flag b) = false →
       create_tests_file flag b = adjustedBody flag b ++ ['\n']) ∧
    (adjustedBody flag b = [] → create_tests_file flag b = ['\n']) := by
  refine ⟨fun h => ?_, fun h => ?_, fun h => ?_⟩
  · simp [create_tests_file, h]
  · simp [create_tests_file, h]
  · simp [create_tests_file, h, endsWithNl]

/-- Witness for C3 at concrete bodies. -/
theorem claim_C3_witness :
    create_tests_file false ['x'] = ['x', '\n'] ∧
    create_tests_file false ['x', '\n'] = ['x', '\n'] ∧
    create_tests_file false [] = ['\n'] :=
  ⟨(claim_C3 false ['x']).2.1 (by decide),
   (claim_C3 false ['x', '\n']).1 (by decide),
   (claim_C3 false []).2.2 (by decide)⟩

/-- Counterexample for C4: in the trimmed body `["        a();", "    ",
"        b();"]` with indent `"    "`, the whitespace-only interior line
begins with the indent, yet the dedent stage leaves it unchanged instead of
removing the indent. -/
theorem claim_C4_cex :
    ("    ".toList).isPrefixOf ((trimBlank bodyLinesC4).getD 1 []) = true ∧
    (dedentStage "    ".toList (trimBlank bodyLinesC4)).getD 1 [] ≠
      ((trimBlank bodyLinesC4).getD 1 []).drop (("    ".toList).length) := by
  refine ⟨by decide, by decide⟩

/-- C4 (amended): after trimming, each non-blank line beginning with exactly
the indent loses it; blank (whitespace-only) lines and lines not beginning
with the indent are left unchanged. -/
theorem claim_C4 (ind : List Char) (ls : List (List Char)) (i : Nat) (h : i < ls.length) :
    (dedentStage ind ls).getD i [] =
      (if isBlankLine (ls.getD i []) then ls.getD i []
       else if ind.isPrefixOf (ls.getD i []) then (ls.getD i []).drop ind.length
       else ls.getD i []) := by
  unfold dedentStage
  by_cases hg : (ls.isEmpty || ind.isEmpty) = true
  · rw [if_pos hg]
    have hne : ls.isEmpty = false := by
      cases ls with
      | nil => simp at h
      | cons _ _ => rfl
    rw [hne] at hg
    simp only [Bool.false_or] at hg
    have : ind = [] := by simpa [List.isEmpty_iff] using hg
    subst this
    have hpref : List.isPrefixOf ([] : List Char) (ls.getD i []) = true := by
      cases ls.getD i [] <;> rfl
    simp [hpref]
  · rw [if_neg hg]
    rw [getD_map (dedentLine ind) ls i h]
    rfl

/-- Witness for C4 at a concrete line list. -/
theorem claim_C4_witness :
    (dedentStage "    ".toList bodyLinesC4).getD 1 [] =
      (if isBlankLine (bodyLinesC4.getD 1 []) then bodyLinesC4.getD 1 []
       else if ("    ".toList).isPrefixOf (bodyLinesC4.getD 1 []) then
         (bodyLinesC4.getD 1 []).drop ("    ".toList).length
       else bodyLinesC4.getD 1 []) :=
  claim_C4 "    ".toList bodyLinesC4 1 (by decide)

/-- Helper: the quote character is not the backslash character. -/
theorem qd_bs : (quoteD = backslashC) = False := by decide

/-- Helper: the opening brace is not the backslash character. -/
theorem ob_bs : (openBraceC = backslashC) = False := by decide

/-- Helper: the opening brace is not the quote character. -/
theorem ob_qd : (openBraceC = quoteD) = False := by decide

/-- Helper: the closing brace is not the backslash character. -/
theorem cb_bs : (closeBraceC = backslashC) = False := by decide

/-- Helper: the closing brace is not the quote character. -/
theorem cb_qd : (closeBraceC = quoteD) = False := by decide

/-- Helper: the closing brace is not the opening brace. -/
theorem cb_ob : (closeBraceC = openBraceC) = False := by decide

/-- Helper: the closer search transcribed from `extract_test_body` agrees
with the closer search expressed through the locator's step function, once
the opener is recorded as found. -/
theorem findCloseRel_eq_loc :
    ∀ (cs : List Char) (bc : Int) (ins esc : Bool),
      findCloseRel bc ins esc cs = locCloseRel ⟨bc, ins, esc, true⟩ cs := by
  intro cs
  induction cs with
  | nil => intro bc ins esc; rfl
  | cons c cs ih =>
    intro bc ins esc
    cases esc with
    | true => simp [findCloseRel, locCloseRel, stepChar, ih]
    | false =>
      by_cases hb : c = backslashC
      · subst hb; simp [findCloseRel, locCloseRel, stepChar, ih]
      · by_cases hq : c = quoteD
        · subst hq
          cases ins with
          | true => simp [findCloseRel, locCloseRel, stepChar, qd_bs, ih]
          | false => simp [findCloseRel, locCloseRel, stepChar, qd_bs, ih]
        · cases ins with
          | true => simp [findCloseRel, locCloseRel, stepChar, hb, hq, ih]
          | false =>
            by_cases ho : c = openBraceC
            · subst ho
              simp [findCloseRel, locCloseRel, stepChar, ob_bs, ob_qd, ih]
            · by_cases hc : c = closeBraceC
              · subst hc
                by_cases hz : bc - 1 = 0
                · simp [findCloseRel, locCloseRel, stepChar, cb_bs, cb_qd, cb_ob, hz]
                · simp [findCloseRel, locCloseRel, stepChar, cb_bs, cb_qd, cb_ob, hz, ih]
              · simp [findCloseRel, locCloseRel, stepChar, hb, hq, ho, hc, ih]

/-- Counterexample for C5: on a content whose marker line carries a brace
inside a double-quoted string literal before the declaration line, the code
takes that brace as the opener (finding no body), while the claim's "first
unescaped brace" rule finds the declaration's opener and a body. -/
theorem claim_C5_cex : candidateBody contentC5 ≠ specCandidateBody contentC5 := by
  decide

/-- C5 (amended): the opener is the first brace character of `raw_content`
regardless of backslash or string context (Python `content.find`); the
matching closer is then found with the same string/escape-aware depth
counter as the locator; the candidate body is the substring strictly
between the two braces. -/
theorem claim_C5 (content : List Char) :
    candidateBody content = amendedCandidateBody content := by
  unfold candidateBody amendedCandidateBody
  simp only [findCloseRel_eq_loc]

/-- Helper: a pattern that is not contained in a list is nonempty
(the empty pattern is contained in everything). -/
theorem containsSub_false_ne_nil {old s : List Char} (h : containsSub old s = false) :
    old ≠ [] := by
  intro h0
  subst h0
  cases s <;> simp [containsSub, List.isPrefixOf] at h

/-- Helper: the replace loop leaves a list without any occurrence of the
pattern unchanged, for any amount of fuel. -/
theorem pyReplaceGo_nc (old new : List Char) :
    ∀ (fuel : Nat) (s : List Char), containsSub old s = false →
      pyReplaceGo old new fuel s = s := by
  intro fuel
  induction fuel with
  | zero => intro s _; rfl
  | succ n ih =>
    intro s h
    cases s with
    | nil => rfl
    | cons c cs =>
      have h' : (old.isPrefixOf (c :: cs) || containsSub old cs) = false := h
      rw [Bool.or_eq_false_iff] at h'
      simp only [pyReplaceGo, h'.1, Bool.false_eq_true, if_false]
      rw [ih cs h'.2]

/-- Helper: `str.replace` on a buffer that does not contain the pattern is
the identity. -/
theorem pyReplace_nc {old : List Char} (new : List Char) {s : List Char}
    (h : containsSub old s = false) : pyReplace old new s = s := by
  have hne : old.isEmpty = false := by
    have := containsSub_false_ne_nil h
    cases old with
    | nil => exact absurd rfl this
    | cons _ _ => rfl
  unfold pyReplace
  rw [hne]
  simp only [Bool.false_eq_true, if_false]
  exact pyReplaceGo_nc old new s.length s h

/-- C7: when the current file contents no longer contain the descriptor's
`raw_content` as a substring, `replace_test_module_with_mod_reference` is a
benign no-op: the function is total (no exception in the model) and the
resulting contents are identical to the input. -/
theorem claim_C7 (fileContent : List Char) (tm : TestModule)
    (h : containsSub tm.content fileContent = false) :
    replace_test_module_with_mod_reference fileContent tm = fileContent := by
  unfold replace_test_module_with_mod_reference
  exact pyReplace_nc _ h

/-- Witness for C7: a buffer that does not contain the C1 descriptor's span
is returned unchanged. -/
theorem claim_C7_witness :
    replace_test_module_with_mod_reference ("fn main() \x7b\x7d\n".toList) tmC1 =
      "fn main() \x7b\x7d\n".toList :=
  claim_C7 ("fn main() \x7b\x7d\n".toList) tmC1 (by decide)

/-- Helper: a list is a Boolean prefix of itself followed by anything. -/
theorem isPrefixOf_append_self : ∀ (old rest : List Char),
    old.isPrefixOf (old ++ rest) = true := by
  intro old
  induction old with
  | nil => intro rest; cases rest <;> rfl
  | cons c cs ih => intro rest; simp [List.isPrefixOf, ih]

/-- Helper: fuel stability of the replace loop — any two sufficient fuels
give the same result. -/
theorem pyReplaceGo_stable (old new : List Char) (hold : old ≠ []) :
    ∀ (f1 f2 : Nat) (s : List Char), s.length ≤ f1 → s.length ≤ f2 →
      pyReplaceGo old new f1 s = pyReplaceGo old new f2 s := by
  intro f1
  induction f1 with
  | zero =>
    intro f2 s h1 _
    have : s = [] := by cases s with | nil => rfl | cons _ _ => simp at h1
    subst this
    cases f2 <;> rfl
  | succ n ih =>
    intro f2 s h1 h2
    cases s with
    | nil => cases f2 <;> rfl
    | cons c cs =>
      cases f2 with
      | zero => simp at h2
      | succ m =>
        have hlen : old.length ≥ 1 := by
          cases old with
          | nil => exact absurd rfl hold
          | cons _ _ => simp
        by_cases hp : old.isPrefixOf (c :: cs) = true
        · simp only [pyReplaceGo, hp, if_true]
          have hd : ((c :: cs).drop old.length).length ≤ n := by
            rw [List.length_drop]
            simp only [List.length_cons] at h1 ⊢
            omega
          have hd2 : ((c :: cs).drop old.length).length ≤ m := by
            rw [List.length_drop]
            simp only [List.length_cons] at h2 ⊢
            omega
          exact congrArg (new ++ ·) (ih m _ hd hd2)
        · simp only [pyReplaceGo, hp, Bool.false_eq_true, if_false]
          have hc1 : cs.length ≤ n := by simp only [List.length_cons] at h1; omega
          have hc2 : cs.length ≤ m := by simp only [List.length_cons] at h2; omega
          exact congrArg (c :: ·) (ih m cs hc1 hc2)

/-- Helper: the replace loop run with exact fuel on `a ++ old ++ rest`,
where no occurrence of `old` starts inside `a`, emits `a`, replaces the
explicit occurrence, and continues canonically on `rest`. -/
theorem pyReplaceGo_decomp (old new : List Char) (hold : old ≠ []) :
    ∀ (a rest : List Char),
      (∀ i, i < a.length → old.isPrefixOf ((a ++ old ++ rest).drop i) = false) →
      pyReplaceGo old new (a ++ old ++ rest).length (a ++ old ++ rest) =
        a ++ new ++ pyReplaceGo old new rest.length rest := by
  intro a
  induction a with
  | nil =>
    intro rest _
    cases old with
    | nil => exact absurd rfl hold
    | cons o ot =>
      simp only [List.nil_append]
      have hshape : (o :: ot) ++ rest = o :: (ot ++ rest) := rfl
      rw [hshape]
      simp only [List.length_cons]
      have hpref : (o :: ot).isPrefixOf (o :: (ot ++ rest)) = true := by
        rw [← hshape]; exact isPrefixOf_append_self (o :: ot) rest
      simp only [pyReplaceGo, hpref, if_true]
      have hdrop : (o :: (ot ++ rest)).drop (o :: ot).length = rest := by
        rw [← hshape]; exact List.drop_left (o :: ot) rest
      rw [hdrop]
      have hstab : pyReplaceGo (o :: ot) new (ot ++ rest).length rest =
          pyReplaceGo (o :: ot) new rest.length rest := by
        apply pyReplaceGo_stable (o :: ot) new hold
        · rw [List.length_append]; omega
        · exact le_refl _
      rw [hstab]
  | cons x a ih =>
    intro rest h
    have h0 : old.isPrefixOf (x :: (a ++ old ++ rest)) = false := by
      have := h 0 (by simp)
      simpa using this
    have hshape : (x :: a) ++ old ++ rest = x :: (a ++ old ++ rest) := rfl
    rw [hshape]
    simp only [List.length_cons]
    simp only [pyReplaceGo, h0, Bool.false_eq_true, if_false]
    have hrec := ih rest (fun i hi => by
      have := h (i + 1) (by simp only [List.length_cons]; omega)
      rw [hshape] at this
      simpa [List.drop_succ_cons] using this)
    rw [hrec]
    rfl

/-- Helper: `str.replace` on a clean two-segment decomposition. -/
theorem pyReplace_decomp (old new : List Char) (hold : old ≠ []) (a rest : List Char)
    (h : ∀ i, i < a.length → old.isPrefixOf ((a ++ old ++ rest).drop i) = false) :
    pyReplace old new (a ++ old ++ rest) = a ++ new ++ pyReplace old new rest := by
  have hne : old.isEmpty = false := by
    cases old with
    | nil => exact absurd rfl hold
    | cons _ _ => rfl
  unfold pyReplace
  rw [hne]
  simp only [Bool.false_eq_true, if_false]
  exact pyReplaceGo_decomp old new hold a rest h

/-- C10: the step-6 replacement substitutes every occurrence of
`raw_content`, not only the located one — on a buffer holding two
byte-identical copies of the span, one call replaces both with the stub,
and a subsequent call for the duplicate descriptor finds the span absent
and changes nothing. -/
theorem claim_C10 (tm : TestModule) (a b c : List Char)
    (h0 : tm.content ≠ [])
    (ha : ∀ i, i < a.length →
      tm.content.isPrefixOf ((a ++ tm.content ++ (b ++ tm.content ++ c)).drop i) = false)
    (hb : ∀ i, i < b.length →
      tm.content.isPrefixOf ((b ++ tm.content ++ c).drop i) = false)
    (hc : containsSub tm.content c = false) :
    replace_test_module_with_mod_reference
        (a ++ tm.content ++ (b ++ tm.content ++ c)) tm =
      a ++ modStub tm.indent tm.module_name ++
        (b ++ modStub tm.indent tm.module_name ++ c) ∧
    (containsSub tm.content
        (a ++ modStub tm.indent tm.module_name ++
          (b ++ modStub tm.indent tm.module_name ++ c)) = false →
      replace_test_module_with_mod_reference
          (a ++ modStub tm.indent tm.module_name ++
            (b ++ modStub tm.indent tm.module_name ++ c)) tm =
        a ++ modStub tm.indent tm.module_name ++
          (b ++ modStub tm.indent tm.module_name ++ c)) := by
  constructor
  · unfold replace_test_module_with_mod_reference
    rw [pyReplace_decomp tm.content _ h0 a (b ++ tm.content ++ c) ha]
    rw [pyReplace_decomp tm.content _ h0 b c hb]
    rw [pyReplace_nc _ hc]
  · intro habs
    unfold replace_test_module_with_mod_reference
    exact pyReplace_nc _ habs

/-- C8: when a marker line is followed (skipping blanks) by a matching
`mod` declaration whose opened brace never returns the depth to zero before
the end of the buffer, the locator emits no descriptor for that occurrence
and continues scanning at the next line — no exception is raised (the model
is total), and blocks located later in the buffer are still emitted, as the
continuation equation shows. -/
theorem claim_C8 (fp : List Char) (lines : List (List Char)) (fuel i d : Nat)
    (ind nm : List Char)
    (hi : i < lines.length)
    (hm : containsSub markerToks (lines.getD i []) = true)
    (hd : findDecl (lines.drop (i + 1)) = some (d, ind, nm))
    (hc : findCloseLines initSt (lines.drop (i + 1 + d)) = none) :
    locFrom fp lines (fuel + 1) i = locFrom fp lines fuel (i + 1) := by
  simp only [locFrom, hi, if_true, hm, hd, hc]

/-- Witness for C8: on a buffer whose first block is malformed (its opener
never closes) and whose second block is well formed, scanning steps past
the malformed occurrence and the full locate run emits exactly the
well-formed block. -/
theorem claim_C8_witness :
    locFrom [] bufC8 5 0 = locFrom [] bufC8 4 1 ∧
    find_test_modules [] bufC8 = [tmC8] :=
  ⟨claim_C8 [] bufC8 4 0 0 [] ("broken".toList) (by decide) (by decide) (by decide)
      (by decide),
   by decide⟩

/-- Helper: a quote character fails the path-character class. -/
theorem notQuote_quote (q : Char) (hq : q = quoteD ∨ q = quoteS) : notQuote q = false := by
  rcases hq with rfl | rfl <;> rfl

/-- Helper: `takeWhile`/`dropWhile` on a run of path characters followed by
a quote stop exactly at the quote. -/
theorem takeWhile_path :
    ∀ (path : List Char), (∀ c ∈ path, notQuote c = true) →
      ∀ (q : Char), notQuote q = false → ∀ (tail : List Char),
        (path ++ q :: tail).takeWhile notQuote = path ∧
        (path ++ q :: tail).dropWhile notQuote = q :: tail := by
  intro path
  induction path with
  | nil =>
    intro _ q hq tail
    constructor
    · simp [List.takeWhile_cons, hq]
    · simp [List.dropWhile_cons, hq]
  | cons c cs ih =>
    intro h q hq tail
    have hc : notQuote c = true := h c (by simp)
    have := ih (fun x hx => h x (by simp [hx])) q hq tail
    constructor
    · simp [List.takeWhile_cons, hc, this.1]
    · simp [List.dropWhile_cons, hc, this.2]

/-- Helper: stripping a token from itself followed by anything succeeds. -/
theorem stripPref_self (t : List Char) : ∀ s, stripPref t (t ++ s) = some s := by
  induction t with
  | nil => intro s; rfl
  | cons c ts ih => intro s; simp [stripPref, ih]

/-- Helper: the `include_str!(` token does not strip off the front of an
`include_bytes!(` call (they diverge at their ninth character). -/
theorem tokStr_not_tokBytes (rest : List Char) : stripPref tokStr (tokBytes ++ rest) = none := rfl

/-- Helper: a successful strip leaves a remainder no longer than the input. -/
theorem stripPref_length :
    ∀ (t s r : List Char), stripPref t s = some r → r.length ≤ s.length := by
  intro t
  induction t with
  | nil =>
    intro s r h
    cases h
    exact le_refl _
  | cons c ts ih =>
    intro s r h
    cases s with
    | nil => cases h
    | cons x xs =>
      by_cases hx : c = x
      · simp only [stripPref, hx, if_true] at h
        have := ih xs r h
        simp only [List.length_cons]
        omega
      · simp [stripPref, hx] at h

/-- Helper: `dropWhile` never lengthens a list. -/
theorem dropWhile_len_le (p : Char → Bool) : ∀ (l : List Char), (l.dropWhile p).length ≤ l.length := by
  intro l
  induction l with
  | nil => simp
  | cons y ys ih =>
    by_cases hy : p y = true
    · simp only [List.dropWhile_cons, hy, if_true]
      simp only [List.length_cons]
      omega
    · simp [List.dropWhile_cons, hy]

/-- Helper: a successful argument match consumes at least the two quotes,
the path, and the closing parenthesis. -/
theorem tryMatchAfter_rest (pfx : List Char) :
    ∀ (r rep rest : List Char), tryMatchAfter pfx r = some (rep, rest) →
      rest.length < r.length := by
  intro r rep rest h
  cases r with
  | nil => cases h
  | cons q r1 =>
    unfold tryMatchAfter at h
    by_cases hq : (q = quoteD || q = quoteS) = true
    · simp only [hq, if_true] at h
      by_cases hp : (r1.takeWhile notQuote).isEmpty = true
      · simp [hp] at h
      · simp only [hp, Bool.false_eq_true, if_false] at h
        have hlen : (r1.dropWhile notQuote).length ≤ r1.length := dropWhile_len_le notQuote r1
        rcases hr2 : r1.dropWhile notQuote with _ | ⟨q2, r3⟩
        · rw [hr2] at h; cases h
        · cases r3 with
          | nil => rw [hr2] at h; cases h
          | cons c r4 =>
            rw [hr2] at h
            by_cases hqc : (q2 = q && c = closeParenC) = true
            · simp only [hqc, if_true, Option.some_inj, Prod.mk.injEq] at h
              rw [hr2] at hlen
              simp only [List.length_cons] at hlen
              rw [← h.2]
              simp only [List.length_cons]
              omega
            · simp [hqc] at h
    · simp [hq] at h

/-- Helper: a successful regex match consumes at least one character. -/
theorem tryMatch_rest_length :
    ∀ (s rep rest : List Char), tryMatch s = some (rep, rest) → rest.length < s.length := by
  intro s rep rest h
  unfold tryMatch at h
  rcases h1 : stripPref tokStr s with _ | r
  · rw [h1] at h
    rcases h2 : stripPref tokBytes s with _ | r
    · rw [h2] at h; cases h
    · rw [h2] at h
      have ha := tryMatchAfter_rest tokBytes r rep rest h
      have hl := stripPref_length tokBytes s r h2
      omega
  · rw [h1] at h
    have ha := tryMatchAfter_rest tokStr r rep rest h
    have hl := stripPref_length tokStr s r h1
    omega

/-- Helper: fuel stability of the rewrite scan loop. -/
theorem pySubInc_stable :
    ∀ (f1 f2 : Nat) (s : List Char), s.length ≤ f1 → s.length ≤ f2 →
      pySubInc f1 s = pySubInc f2 s := by
  intro f1
  induction f1 with
  | zero =>
    intro f2 s h1 _
    have : s = [] := by cases s with | nil => rfl | cons _ _ => simp at h1
    subst this
    cases f2 <;> rfl
  | succ n ih =>
    intro f2 s h1 h2
    cases s with
    | nil => cases f2 <;> rfl
    | cons c cs =>
      cases f2 with
      | zero => simp at h2
      | succ m =>
        simp only [pySubInc]
        rcases hm : tryMatch (c :: cs) with _ | ⟨rep, rest⟩
        · have hc1 : cs.length ≤ n := by simp only [List.length_cons] at h1; omega
          have hc2 : cs.length ≤ m := by simp only [List.length_cons] at h2; omega
          exact congrArg (c :: ·) (ih m cs hc1 hc2)
        · have hr := tryMatch_rest_length (c :: cs) rep rest hm
          simp only [List.length_cons] at hr h1 h2
          exact congrArg (rep ++ ·) (ih m rest (by omega) (by omega))

/-- Helper: the rewrite scan on a matching head emits the replacement and
continues canonically on the remainder. -/
theorem rewriteIncludes_match {s rep rest : List Char}
    (h : tryMatch s = some (rep, rest)) :
    rewriteIncludes s = rep ++ rewriteIncludes rest := by
  cases s with
  | nil =>
    have : tryMatch ([] : List Char) = none := rfl
    rw [this] at h
    cases h
  | cons c cs =>
    unfold rewriteIncludes
    simp only [List.length_cons, pySubInc]
    rw [h]
    have hr := tryMatch_rest_length (c :: cs) rep rest h
    simp only [List.length_cons] at hr
    exact congrArg (rep ++ ·) (pySubInc_stable cs.length rest.length rest (by omega) (le_refl _))

/-- Helper: the rewrite scan on a non-matching head copies one character. -/
theorem rewriteIncludes_copy {c : Char} {cs : List Char}
    (h : tryMatch (c :: cs) = none) :
    rewriteIncludes (c :: cs) = c :: rewriteIncludes cs := by
  unfold rewriteIncludes
  simp only [List.length_cons, pySubInc]
  rw [h]

/-- Helper: the regex matches an include-directive call at the head of the
input and rebuilds it with the adjusted path. -/
theorem tryMatch_call (k : Bool) (q : Char) (path s2 : List Char)
    (hq : q = quoteD ∨ q = quoteS) (hp : path ≠ [])
    (hpc : ∀ c ∈ path, notQuote c = true) :
    tryMatch (incCall k q path ++ s2) = some (incCall k q (adjust_include_path path), s2) := by
  have hqb : (q = quoteD || q = quoteS) = true := by
    rcases hq with rfl | rfl <;> simp
  have hnq : notQuote q = false := notQuote_quote q hq
  obtain ⟨ht, hd⟩ := takeWhile_path path hpc q hnq (closeParenC :: s2)
  have hpe : path.isEmpty = false := by
    cases path with
    | nil => exact absurd rfl hp
    | cons _ _ => rfl
  cases k with
  | true =>
    have hshape : incCall true q path ++ s2 = tokStr ++ (q :: (path ++ q :: closeParenC :: s2)) := by
      simp [incCall]
    rw [hshape]
    unfold tryMatch
    rw [stripPref_self tokStr]
    unfold tryMatchAfter
    simp only [hqb, if_true, ht, hd, hpe, Bool.false_eq_true, if_false]
    simp [incCall]
  | false =>
    have hshape : incCall false q path ++ s2 = tokBytes ++ (q :: (path ++ q :: closeParenC :: s2)) := by
      simp [incCall]
    rw [hshape]
    unfold tryMatch
    rw [tokStr_not_tokBytes]
    rw [stripPref_self tokBytes]
    unfold tryMatchAfter
    simp only [hqb, if_true, ht, hd, hpe, Bool.false_eq_true, if_false]
    simp [incCall]

/-- C6: when relocating to a different directory, every include-directive
call whose quoted path does not already start with `/` or `../` has its
path prefixed with exactly one `../`; calls whose path already starts with
`/` or `../` keep their path, and all text outside the matched call is left
unchanged (the text before the call is copied verbatim and the scan
continues canonically after it). -/
theorem claim_C6 (k : Bool) (q : Char) (path s1 s2 : List Char)
    (hq : q = quoteD ∨ q = quoteS) (hp : path ≠ [])
    (hpc : ∀ c ∈ path, notQuote c = true)
    (hs1 : ∀ i, i < s1.length → tryMatch ((s1 ++ incCall k q path ++ s2).drop i) = none) :
    rewriteIncludes (s1 ++ incCall k q path ++ s2) =
      s1 ++ incCall k q (adjust_include_path path) ++ rewriteIncludes s2 ∧
    (("../".toList.isPrefixOf path = true ∨ "/".toList.isPrefixOf path = true) →
      adjust_include_path path = path) ∧
    ("../".toList.isPrefixOf path = false → "/".toList.isPrefixOf path = false →
      adjust_include_path path = "../".toList ++ path) := by
  refine ⟨?_, ?_, ?_⟩
  · induction s1 with
    | nil =>
      simp only [List.nil_append]
      exact rewriteIncludes_match (tryMatch_call k q path s2 hq hp hpc)
    | cons x s1 ih =>
      have h0 : tryMatch (x :: (s1 ++ incCall k q path ++ s2)) = none := by
        have := hs1 0 (by simp)
        simpa using this
      have hstep := rewriteIncludes_copy h0
      show rewriteIncludes (x :: (s1 ++ incCall k q path ++ s2)) =
        x :: (s1 ++ incCall k q (adjust_include_path path) ++ rewriteIncludes s2)
      rw [hstep]
      have ih' := ih (fun i hi => by
        have := hs1 (i + 1) (by simp only [List.length_cons]; omega)
        simpa [List.drop_succ_cons] using this)
      rw [ih']
  · intro h
    unfold adjust_include_path
    refine if_pos ?_
    rcases h with h | h <;> rw [h] <;> simp
  · intro h1 h2
    unfold adjust_include_path
    refine if_neg ?_
    rw [h1, h2]
    simp

/-- Witness for C6 on the spec scenario: `include_str!("fixture.txt")`
inside surrounding text becomes `include_str!("../fixture.txt")`. -/
theorem claim_C6_witness :
    rewriteIncludes ("let x = ".toList ++ incCall true quoteD ("fixture.txt".toList) ++ ";\n".toList) =
      "let x = ".toList ++ incCall true quoteD (adjust_include_path ("fixture.txt".toList)) ++
        rewriteIncludes (";\n".toList) ∧
    (("../".toList.isPrefixOf ("fixture.txt".toList) = true ∨
        "/".toList.isPrefixOf ("fixture.txt".toList) = true) →
      adjust_include_path ("fixture.txt".toList) = "fixture.txt".toList) ∧
    ("../".toList.isPrefixOf ("fixture.txt".toList) = false →
      "/".toList.isPrefixOf ("fixture.txt".toList) = false →
      adjust_include_path ("fixture.txt".toList) = "../".toList ++ "fixture.txt".toList) :=
  claim_C6 true quoteD ("fixture.txt".toList) ("let x = ".toList) (";\n".toList)
    (Or.inl rfl) (by decide) (by decide) (by decide)

/-- Helper: the declaration lookahead returns an in-range line index. -/
theorem findDecl_lt : ∀ {ls : List (List Char)} {d : Nat} {ind nm : List Char},
    findDecl ls = some (d, ind, nm) → d < ls.length := by
  intro ls
  induction ls with
  | nil => intro d ind nm h; cases h
  | cons l ls ih =>
    intro d ind nm h
    unfold findDecl at h
    by_cases hb : isBlankLine l = true
    · simp only [hb, if_true] at h
      rcases hf : findDecl ls with _ | r
      · rw [hf] at h; cases h
      · obtain ⟨d', ind', nm'⟩ := r
        rw [hf] at h
        cases h
        have := ih hf
        simp only [List.length_cons]
        omega
    · simp only [hb, Bool.false_eq_true, if_false] at h
      rcases hp : parseModDecl l with _ | p
      · rw [hp] at h; cases h
      · obtain ⟨ind', nm'⟩ := p
        rw [hp] at h
        cases h
        simp

/-- Helper: the closing-brace search returns an in-range line index. -/
theorem findCloseLines_lt : ∀ {ls : List (List Char)} {st : ScanSt} {o : Nat},
    findCloseLines st ls = some o → o < ls.length := by
  intro ls
  induction ls with
  | nil => intro st o h; cases h
  | cons l ls ih =>
    intro st o h
    rcases hs : scanLineChars st l with _ | st'
    · have heq : findCloseLines st (l :: ls) = some 0 := by
        conv_lhs => rw [findCloseLines]
        rw [hs]
      rw [heq] at h
      cases h
      simp
    · have heq : findCloseLines st (l :: ls) = (findCloseLines st' ls).map (· + 1) := by
        conv_lhs => rw [findCloseLines]
        rw [hs]
      rw [heq] at h
      rcases hf : findCloseLines st' ls with _ | o'
      · rw [hf] at h; cases h
      · rw [hf] at h
        cases h
        have := ih hf
        simp only [List.length_cons]
        omega

/-- Helper: invariants of the locator's main loop, for any fuel and start
index — every emitted descriptor starts at or after the current index, has
a proper span lying inside the buffer whose content is the exact substring
of the covered lines, and the emitted list is pairwise ordered with each
span ending no later than the next one starts. -/
theorem locFrom_spec (fp : List Char) (lines : List (List Char)) :
    ∀ (fuel : Nat) (i : Nat),
      (∀ m ∈ locFrom fp lines fuel i,
          i ≤ m.start_line ∧ m.start_line < m.end_line ∧ m.end_line ≤ lines.length ∧
          m.content =
            List.flatten ((lines.drop m.start_line).take (m.end_line - m.start_line))) ∧
      List.Pairwise (fun a b => a.end_line ≤ b.start_line) (locFrom fp lines fuel i) := by
  intro fuel
  induction fuel with
  | zero =>
    intro i
    exact ⟨fun m hm => absurd hm (by simp [locFrom]), by simp [locFrom]⟩
  | succ n ih =>
    intro i
    by_cases hi : i < lines.length
    · by_cases hmk : containsSub markerToks (lines.getD i []) = true
      · rcases hfd : findDecl (lines.drop (i + 1)) with _ | ⟨d, ind, nm⟩
        · have heq : locFrom fp lines (n + 1) i = locFrom fp lines n (i + 1) := by
            simp only [locFrom, hi, if_true, hmk, hfd]
          rw [heq]
          refine ⟨fun m hm => ?_, (ih (i + 1)).2⟩
          have h := (ih (i + 1)).1 m hm
          exact ⟨by omega, h.2⟩
        · rcases hfc : findCloseLines initSt (lines.drop (i + 1 + d)) with _ | o
          · have heq : locFrom fp lines (n + 1) i = locFrom fp lines n (i + 1) := by
              simp only [locFrom, hi, if_true, hmk, hfd, hfc]
            rw [heq]
            refine ⟨fun m hm => ?_, (ih (i + 1)).2⟩
            have h := (ih (i + 1)).1 m hm
            exact ⟨by omega, h.2⟩
          · have heq : locFrom fp lines (n + 1) i =
                { file_path := fp, module_name := nm, start_line := i,
                  end_line := i + 1 + d + o + 1,
                  content := List.flatten ((lines.drop i).take (i + 1 + d + o + 1 - i)),
                  indent := ind } :: locFrom fp lines n (i + 1 + d + o + 1) := by
              simp only [locFrom, hi, if_true, hmk, hfd, hfc]
            have hdlt : d < lines.length - (i + 1) := by
              have := findDecl_lt hfd
              rwa [List.length_drop] at this
            have holt : o < lines.length - (i + 1 + d) := by
              have := findCloseLines_lt hfc
              rwa [List.length_drop] at this
            rw [heq]
            constructor
            · intro m hm
              rcases List.mem_cons.mp hm with rfl | hm'
              · exact ⟨le_refl i, show i < i + 1 + d + o + 1 by omega,
                  show i + 1 + d + o + 1 ≤ lines.length by omega, rfl⟩
              · have h := (ih (i + 1 + d + o + 1)).1 m hm'
                exact ⟨by omega, h.2⟩
            · refine List.Pairwise.cons ?_ (ih (i + 1 + d + o + 1)).2
              intro b hb
              have h := (ih (i + 1 + d + o + 1)).1 b hb
              show i + 1 + d + o + 1 ≤ b.start_line
              omega
      · have heq : locFrom fp lines (n + 1) i = locFrom fp lines n (i + 1) := by
          simp only [locFrom, hi, if_true, hmk, Bool.false_eq_true, if_false]
        rw [heq]
        refine ⟨fun m hm => ?_, (ih (i + 1)).2⟩
        have h := (ih (i + 1)).1 m hm
        exact ⟨by omega, h.2⟩
    · have heq : locFrom fp lines (n + 1) i = [] := by simp [locFrom, hi]
      rw [heq]
      exact ⟨fun m hm => absurd hm (by simp), by simp⟩

/-- C9: every descriptor emitted by `find_test_modules` has
`start_line < end_line` with the span inside the buffer, its `content` is
exactly the concatenation of the covered lines `[start_line, end_line)`,
and the emitted descriptors are pairwise non-overlapping and in increasing
position order (each span ends no later than any later span starts, because
scanning resumes strictly after each emitted span). -/
theorem claim_C9 (fp : List Char) (lines : List (List Char)) :
    (∀ m ∈ find_test_modules fp lines,
        m.start_line < m.end_line ∧ m.end_line ≤ lines.length ∧
        m.content =
          List.flatten ((lines.drop m.start_line).take (m.end_line - m.start_line))) ∧
    List.Pairwise (fun a b => a.end_line ≤ b.start_line) (find_test_modules fp lines) := by
  have h := locFrom_spec fp lines lines.length 0
  exact ⟨fun m hm => (h.1 m hm).2, h.2⟩

/-- Witness for C9 on the C1 buffer and its descriptor. -/
theorem claim_C9_witness :
    tmC1.start_line < tmC1.end_line ∧ tmC1.end_line ≤ bufC1.length ∧
    tmC1.content =
      List.flatten ((bufC1.drop tmC1.start_line).take (tmC1.end_line - tmC1.start_line)) :=
  (claim_C9 [] bufC1).1 tmC1 (by decide)

/-- Witness for C10 on a buffer holding two copies of the C1 span. -/
theorem claim_C10_witness :
    replace_test_module_with_mod_reference
        ("A\n".toList ++ tmC1.content ++ ("B\n".toList ++ tmC1.content ++ "C\n".toList)) tmC1 =
      "A\n".toList ++ modStub tmC1.indent tmC1.module_name ++
        ("B\n".toList ++ modStub tmC1.indent tmC1.module_name ++ "C\n".toList) ∧
    (containsSub tmC1.content
        ("A\n".toList ++ modStub tmC1.indent tmC1.module_name ++
          ("B\n".toList ++ modStub tmC1.indent tmC1.module_name ++ "C\n".toList)) = false →
      replace_test_module_with_mod_reference
          ("A\n".toList ++ modStub tmC1.indent tmC1.module_name ++
            ("B\n".toList ++ modStub tmC1.indent tmC1.module_name ++ "C\n".toList)) tmC1 =
        "A\n".toList ++ modStub tmC1.indent tmC1.module_name ++
          ("B\n".toList ++ modStub tmC1.indent tmC1.module_name ++ "C\n".toList)) :=
  claim_C10 tmC1 ("A\n".toList) ("B\n".toList) ("C\n".toList)
    (by decide) (by decide) (by decide) (by decide)

end ReorganizeTests
